import Mathlib

/-!
Shallow embedding of `aphrodite/modeling/models/deepseek.py` (Deepseek
decoder-only MoE model) and proofs of the specified properties.

Tensors are modelled over `ℚ` (floating-point arithmetic is modelled
exactly); a matrix is a list of rows, a vector a list of entries.
The exponential used by softmax and the silu nonlinearity are abstract
parameters (any positive function for `exp`), since their numeric values
do not matter for the routing/layout properties proved here.
-/

namespace Deepseek

/-! ## Basic linear algebra on rational lists -/

def dot (r x : List ℚ) : ℚ := (List.zipWith (· * ·) r x).sum

def matvec (W : List (List ℚ)) (x : List ℚ) : List ℚ := W.map (fun r => dot r x)

theorem matvec_append (A B : List (List ℚ)) (x : List ℚ) :
    matvec (A ++ B) x = matvec A x ++ matvec B x := by
  simp [matvec]

theorem matvec_length (W : List (List ℚ)) (x : List ℚ) :
    (matvec W x).length = W.length := by
  simp [matvec]

def zeroMat (m n : Nat) : List (List ℚ) := List.replicate m (List.replicate n 0)

/-! ## MoE routing (DeepseekMoE.forward, lines 174–182)

`router_logits, _ = self.gate(hidden_states)`
`routing_weights = F.softmax(router_logits, dim=1, dtype=torch.float)`
`routing_weights, selected_experts = torch.topk(routing_weights, self.top_k)`
`if self.config.norm_topk_prob: routing_weights /= routing_weights.sum(...)`
-/

/-- Softmax over a logit vector, parametric in the exponential map `e`
(the real code uses `Float` `exp`; any strictly positive `e` has the
same routing-relevant behaviour). -/
def softmax (e : ℚ → ℚ) (logits : List ℚ) : List ℚ :=
  let s := (logits.map e).sum
  logits.map (fun x => e x / s)

/-- Index of a maximal entry of `xs` among the candidate indices `i :: is`,
preferring the earliest candidate on ties (as `torch.topk` does for the
values it returns). -/
def maxIdx (xs : List ℚ) (i : Nat) : List Nat → Nat
  | [] => i
  | j :: rest =>
    if xs.getD (maxIdx xs j rest) 0 > xs.getD i 0 then maxIdx xs j rest else i

/-- Greedy selection of `k` indices of largest value, avoiding the already
`chosen` indices. -/
def topkGo (xs : List ℚ) : Nat → List Nat → List Nat
  | 0, _ => []
  | Nat.succ k, chosen =>
    match (List.range xs.length).filter (fun i => !(chosen.contains i)) with
    | [] => []
    | i :: rest => maxIdx xs i rest :: topkGo xs k (maxIdx xs i rest :: chosen)

def topkIndices (xs : List ℚ) (k : Nat) : List Nat := topkGo xs k []

/-- `torch.topk`: the `k` largest values together with their indices. -/
def topk (xs : List ℚ) (k : Nat) : List ℚ × List Nat :=
  let is := topkIndices xs k
  (is.map (fun i => xs.getD i 0), is)

/-- The routing computation of `DeepseekMoE.forward` for one token:
gate projection, softmax over all routed experts, top-k selection, and
optional renormalization (`norm_topk_prob`). -/
def moeRouting (e : ℚ → ℚ) (normTopkProb : Bool) (topK : Nat)
    (gateW : List (List ℚ)) (hidden : List ℚ) : List ℚ × List Nat :=
  let routerLogits := matvec gateW hidden
  let w := softmax e routerLogits
  let vals := (topk w topK).1
  let sel := (topk w topK).2
  (if normTopkProb then vals.map (fun v => v / vals.sum) else vals, sel)

/-! ### Routing lemmas -/

theorem softmax_length (e : ℚ → ℚ) (logits : List ℚ) :
    (softmax e logits).length = logits.length := by
  simp [softmax]

theorem sum_map_div (f : ℚ → ℚ) (l : List ℚ) (t : ℚ) :
    (l.map (fun v => f v / t)).sum = (l.map f).sum / t := by
  induction l with
  | nil => simp
  | cons a l ih => simp [ih, add_div]

theorem softmax_sum (e : ℚ → ℚ) (hpos : ∀ x, 0 < e x) (logits : List ℚ)
    (hne : logits ≠ []) : (softmax e logits).sum = 1 := by
  have hs : 0 < (logits.map e).sum := by
    apply List.sum_pos
    · intro x hx
      rcases List.mem_map.mp hx with ⟨y, _, rfl⟩
      exact hpos y
    · simpa using hne
  simp only [softmax, sum_map_div]
  exact div_self (ne_of_gt hs)

theorem softmax_pos (e : ℚ → ℚ) (hpos : ∀ x, 0 < e x) (logits : List ℚ)
    (hne : logits ≠ []) : ∀ v ∈ softmax e logits, 0 < v := by
  have hs : 0 < (logits.map e).sum := by
    apply List.sum_pos
    · intro x hx
      rcases List.mem_map.mp hx with ⟨y, _, rfl⟩
      exact hpos y
    · simpa using hne
  intro v hv
  simp only [softmax, List.mem_map] at hv
  rcases hv with ⟨y, _, rfl⟩
  exact div_pos (hpos y) hs

theorem maxIdx_mem (xs : List ℚ) (i : Nat) (is : List Nat) :
    maxIdx xs i is ∈ i :: is := by
  induction is generalizing i with
  | nil => simp [maxIdx]
  | cons j rest ih =>
    simp only [maxIdx]
    by_cases hc : xs.getD (maxIdx xs j rest) 0 > xs.getD i 0
    · rw [if_pos hc]
      exact List.mem_cons_of_mem i (ih j)
    · rw [if_neg hc]
      exact List.mem_cons_self i _

theorem maxIdx_max (xs : List ℚ) (i : Nat) (is : List Nat) :
    ∀ a ∈ i :: is, xs.getD a 0 ≤ xs.getD (maxIdx xs i is) 0 := by
  induction is generalizing i with
  | nil =>
    intro a ha
    rcases List.mem_cons.mp ha with rfl | h
    · simp [maxIdx]
    · simp at h
  | cons j rest ih =>
    intro a ha
    simp only [maxIdx]
    by_cases hc : xs.getD (maxIdx xs j rest) 0 > xs.getD i 0
    · rw [if_pos hc]
      rcases List.mem_cons.mp ha with rfl | h
      · exact le_of_lt hc
      · exact ih j a h
    · rw [if_neg hc]
      rcases List.mem_cons.mp ha with rfl | h
      · exact le_refl _
      · exact le_trans (ih j a h) (not_lt.mp hc)

theorem topkGo_mem (xs : List ℚ) (k : Nat) (chosen : List Nat) :
    ∀ a ∈ topkGo xs k chosen, a < xs.length ∧ a ∉ chosen := by
  induction k generalizing chosen with
  | zero => intro a ha; simp [topkGo] at ha
  | succ k ih =>
    intro a ha
    simp only [topkGo] at ha
    cases hf : (List.range xs.length).filter (fun i => !(chosen.contains i)) with
    | nil => rw [hf] at ha; simp at ha
    | cons c rest =>
      rw [hf] at ha
      have hmax : maxIdx xs c rest ∈
          (List.range xs.length).filter (fun i => !(chosen.contains i)) := by
        rw [hf]; exact maxIdx_mem xs c rest
      have hmax' := List.mem_filter.mp hmax
      have hm1 : maxIdx xs c rest < xs.length := List.mem_range.mp hmax'.1
      have hm2 : maxIdx xs c rest ∉ chosen := by
        intro hmem
        have := hmax'.2
        simp [List.contains, hmem] at this
      rcases List.mem_cons.mp ha with rfl | hmem
      · exact ⟨hm1, hm2⟩
      · have := ih (maxIdx xs c rest :: chosen) a hmem
        exact ⟨this.1, fun hc => this.2 (List.mem_cons_of_mem _ hc)⟩

theorem topkGo_nodup (xs : List ℚ) (k : Nat) (chosen : List Nat) :
    (topkGo xs k chosen).Nodup := by
  induction k generalizing chosen with
  | zero => simp [topkGo]
  | succ k ih =>
    simp only [topkGo]
    cases hf : (List.range xs.length).filter (fun i => !(chosen.contains i)) with
    | nil => simp
    | cons c rest =>
      refine List.nodup_cons.mpr ⟨?_, ih _⟩
      intro hmem
      have := (topkGo_mem xs k (maxIdx xs c rest :: chosen) _ hmem).2
      exact this (List.mem_cons_self _ _)

theorem topkGo_length (xs : List ℚ) (k : Nat) (chosen : List Nat)
    (hnd : chosen.Nodup) (hlt : ∀ c ∈ chosen, c < xs.length)
    (hle : chosen.length + k ≤ xs.length) :
    (topkGo xs k chosen).length = k := by
  induction k generalizing chosen with
  | zero => simp [topkGo]
  | succ k ih =>
    simp only [topkGo]
    cases hf : (List.range xs.length).filter (fun i => !(chosen.contains i)) with
    | nil =>
      exfalso
      have hsub : List.range xs.length ⊆ chosen := by
        intro i hi
        have := List.filter_eq_nil_iff.mp hf i hi
        simpa [List.contains] using this
      have hlen : xs.length ≤ chosen.length := by
        have := (List.subperm_of_subset (List.nodup_range _) hsub).length_le
        simpa using this
      omega
    | cons c rest =>
      have hmax : maxIdx xs c rest ∈
          (List.range xs.length).filter (fun i => !(chosen.contains i)) := by
        rw [hf]; exact maxIdx_mem xs c rest
      have hmax' := List.mem_filter.mp hmax
      have hm1 : maxIdx xs c rest < xs.length := List.mem_range.mp hmax'.1
      have hm2 : maxIdx xs c rest ∉ chosen := by
        intro hmem
        have := hmax'.2
        simp [List.contains, hmem] at this
      have := ih (maxIdx xs c rest :: chosen)
        (List.nodup_cons.mpr ⟨hm2, hnd⟩)
        (by intro a ha
            rcases List.mem_cons.mp ha with rfl | ha
            · exact hm1
            · exact hlt a ha)
        (by simpa using Nat.le_trans (by omega) hle)
      simp [this]

theorem sum_getD_range (l : List ℚ) :
    ∑ i ∈ Finset.range l.length, l.getD i 0 = l.sum := by
  induction l with
  | nil => simp
  | cons a t ih =>
    rw [List.length_cons, Finset.sum_range_succ']
    simp only [List.getD_cons_succ, List.getD_cons_zero, ih, List.sum_cons]
    ring

theorem sum_map_getD_le (l : List ℚ) (is : List Nat) (hnd : is.Nodup)
    (hlt : ∀ i ∈ is, i < l.length) (hnn : ∀ v ∈ l, 0 ≤ v) :
    (is.map (fun i => l.getD i 0)).sum ≤ l.sum := by
  rw [← List.sum_toFinset _ hnd, ← sum_getD_range l]
  apply Finset.sum_le_sum_of_subset_of_nonneg
  · intro i hi
    exact Finset.mem_range.mpr (hlt i (List.mem_toFinset.mp hi))
  · intro i _ _
    rcases Nat.lt_or_ge i l.length with h | h
    · rw [List.getD_eq_getElem?_getD, List.getElem?_eq_getElem h]
      exact hnn _ (List.getElem_mem h)
    · rw [List.getD_eq_getElem?_getD, List.getElem?_eq_none h]
      simp

theorem topkGo_ge (xs : List ℚ) (k : Nat) (chosen : List Nat) :
    ∀ i ∈ topkGo xs k chosen, ∀ j, j < xs.length → j ∉ chosen →
      j ∉ topkGo xs k chosen → xs.getD j 0 ≤ xs.getD i 0 := by
  induction k generalizing chosen with
  | zero => intro i hi; simp [topkGo] at hi
  | succ k ih =>
    intro i hi j hj hjc hjn
    simp only [topkGo] at hi hjn
    cases hf : (List.range xs.length).filter (fun i => !(chosen.contains i)) with
    | nil => rw [hf] at hi; simp at hi
    | cons c rest =>
      rw [hf] at hi hjn
      have hjf : j ∈ c :: rest := by
        rw [← hf]
        exact List.mem_filter.mpr ⟨List.mem_range.mpr hj,
          by simp [List.contains, hjc]⟩
      rcases List.mem_cons.mp hi with rfl | hmem
      · exact maxIdx_max xs c rest j hjf
      · have hjm : j ≠ maxIdx xs c rest := by
          intro h; exact hjn (h ▸ List.mem_cons_self _ _)
        exact ih (maxIdx xs c rest :: chosen) i hmem j hj
          (by simp [hjm, hjc]) (fun h => hjn (List.mem_cons_of_mem _ h))

theorem topkIndices_length (xs : List ℚ) (k : Nat) (hk : k ≤ xs.length) :
    (topkIndices xs k).length = k :=
  topkGo_length xs k [] List.nodup_nil (by simp) (by simpa using hk)

theorem topkIndices_nodup (xs : List ℚ) (k : Nat) : (topkIndices xs k).Nodup :=
  topkGo_nodup xs k []

theorem topkIndices_lt (xs : List ℚ) (k : Nat) :
    ∀ a ∈ topkIndices xs k, a < xs.length :=
  fun a ha => (topkGo_mem xs k [] a ha).1

theorem topkIndices_ge (xs : List ℚ) (k : Nat) :
    ∀ i ∈ topkIndices xs k, ∀ j, j < xs.length → j ∉ topkIndices xs k →
      xs.getD j 0 ≤ xs.getD i 0 :=
  fun i hi j hj hjn => topkGo_ge xs k [] i hi j hj (by simp) hjn

theorem topk_vals_pos (xs : List ℚ) (k : Nat) (hk : k ≤ xs.length)
    (hpos : ∀ v ∈ xs, 0 < v) : ∀ v ∈ (topk xs k).1, 0 < v := by
  intro v hv
  simp only [topk, List.mem_map] at hv
  rcases hv with ⟨i, hi, rfl⟩
  have hilt := topkIndices_lt xs k i hi
  rw [List.getD_eq_getElem?_getD, List.getElem?_eq_getElem hilt]
  exact hpos _ (List.getElem_mem hilt)

theorem topk_vals_sum_pos (xs : List ℚ) (k : Nat) (hk1 : 1 ≤ k)
    (hk : k ≤ xs.length) (hpos : ∀ v ∈ xs, 0 < v) : 0 < (topk xs k).1.sum := by
  apply List.sum_pos _ (topk_vals_pos xs k hk hpos)
  have hlen : (topk xs k).1.length = k := by
    simp [topk, topkIndices_length xs k hk]
  intro hnil
  rw [hnil] at hlen
  simp at hlen
  omega

/-- C1: per token, MoE routing softmaxes all `n_routed_experts` router
logits (full mass 1), selects the `top_k` entries (distinct indices whose
softmax weight dominates every unselected index); with `norm_topk_prob`
the selected weights are rescaled to sum to 1; without it they are the raw
softmax values at the selected indices, whose sum is the selected softmax
mass, at most 1. -/
theorem claim_C1_routing (e : ℚ → ℚ) (gateW : List (List ℚ)) (x : List ℚ)
    (k : Nat) (hpos : ∀ t, 0 < e t) (hne : gateW ≠ []) (hk1 : 1 ≤ k)
    (hkn : k ≤ gateW.length) :
    ((softmax e (matvec gateW x)).length = gateW.length ∧
      (softmax e (matvec gateW x)).sum = 1) ∧
    (∀ b : Bool, (moeRouting e b k gateW x).2 = topkIndices (softmax e (matvec gateW x)) k ∧
      (moeRouting e b k gateW x).2.length = k ∧
      (moeRouting e b k gateW x).2.Nodup ∧
      (∀ i ∈ (moeRouting e b k gateW x).2,
        ∀ j, j < gateW.length → j ∉ (moeRouting e b k gateW x).2 →
          (softmax e (matvec gateW x)).getD j 0 ≤ (softmax e (matvec gateW x)).getD i 0)) ∧
    ((moeRouting e true k gateW x).1.sum = 1) ∧
    ((moeRouting e false k gateW x).1 =
        (topkIndices (softmax e (matvec gateW x)) k).map
          (fun i => (softmax e (matvec gateW x)).getD i 0) ∧
      (moeRouting e false k gateW x).1.sum =
        ((topkIndices (softmax e (matvec gateW x)) k).map
          (fun i => (softmax e (matvec gateW x)).getD i 0)).sum ∧
      (moeRouting e false k gateW x).1.sum ≤ 1) := by
  have hlne : matvec gateW x ≠ [] := by
    intro h
    apply hne
    have := congrArg List.length h
    rw [matvec_length] at this
    exact List.length_eq_zero.mp this
  have hwlen : (softmax e (matvec gateW x)).length = gateW.length := by
    rw [softmax_length, matvec_length]
  have hwsum : (softmax e (matvec gateW x)).sum = 1 := softmax_sum e hpos _ hlne
  have hwpos : ∀ v ∈ softmax e (matvec gateW x), 0 < v := softmax_pos e hpos _ hlne
  have hkw : k ≤ (softmax e (matvec gateW x)).length := by rw [hwlen]; exact hkn
  have hsel : ∀ b : Bool,
      (moeRouting e b k gateW x).2 = topkIndices (softmax e (matvec gateW x)) k := by
    intro b; simp [moeRouting, topk]
  refine ⟨⟨hwlen, hwsum⟩, ?_, ?_, ?_, ?_, ?_⟩
  · intro b
    rw [hsel b]
    refine ⟨rfl, topkIndices_length _ k hkw, topkIndices_nodup _ k, ?_⟩
    intro i hi j hj hjn
    exact topkIndices_ge _ k i hi j (by rw [hwlen]; exact hj) hjn
  · have hvals : (moeRouting e true k gateW x).1 =
        (topk (softmax e (matvec gateW x)) k).1.map
          (fun v => v / (topk (softmax e (matvec gateW x)) k).1.sum) := by
      simp [moeRouting]
    rw [hvals, sum_map_div (fun v => v)]
    simp only [List.map_id']
    exact div_self (ne_of_gt (topk_vals_sum_pos _ k hk1 hkw hwpos))
  · simp [moeRouting, topk]
  · simp [moeRouting, topk]
  · have hvals : (moeRouting e false k gateW x).1 =
        (topkIndices (softmax e (matvec gateW x)) k).map
          (fun i => (softmax e (matvec gateW x)).getD i 0) := by
      simp [moeRouting, topk]
    rw [hvals, ← hwsum]
    exact sum_map_getD_le _ _ (topkIndices_nodup _ k) (topkIndices_lt _ k)
      (fun v hv => le_of_lt (hwpos v hv))

theorem claim_C1_routing_witness :
    (moeRouting (fun _ => (1 : ℚ)) true 1 [[1], [2]] [1]).1.sum = 1 ∧
    (moeRouting (fun _ => (1 : ℚ)) false 1 [[1], [2]] [1]).1.sum ≤ 1 := by
  have h := claim_C1_routing (fun _ => (1 : ℚ)) [[1], [2]] [1] 1
    (fun _ => one_pos) (List.cons_ne_nil _ _) (le_refl 1) (by decide)
  exact ⟨h.2.2.1, h.2.2.2.2.2⟩

/-! ## Expert weight packing (DeepseekMoE.pack_params, lines 149–166)

`pack_params` flattens all expert weight tensors of one kind into a single
contiguous buffer (`torch._utils._flatten_dense_tensors`), rebinds each
expert's `param.data` to its slice of the buffer
(`_unflatten_dense_tensors` + `param.data = data`), and views the buffer
as a 3-D bank `(num_experts, *expert_shape)`.  Each weight tensor is
modelled flattened (row-major) as a `List ℚ`; `s` is the flattened size of
one expert's weight. -/

/-- The contiguous bank produced by flattening the experts' weights. -/
def pack_params_bank (ws : List (List ℚ)) : List ℚ := ws.flatten

/-- Expert `e`'s rebound view: the slice `[e*s, e*s+s)` of the bank. -/
def bankSlice (s : Nat) (buf : List ℚ) (e : Nat) : List ℚ :=
  (buf.drop (e * s)).take s

/-- Reading entry `j` of row `e` of the 3-D bank view. -/
def bankRead (s : Nat) (buf : List ℚ) (e j : Nat) : ℚ :=
  (bankSlice s buf e).getD j 0

/-- In-place write through expert `e`'s rebound view: replace the slice by
its updated copy, leaving everything outside the slice untouched. -/
def expertViewWrite (s : Nat) (buf : List ℚ) (e j : Nat) (v : ℚ) : List ℚ :=
  buf.take (e * s) ++ (bankSlice s buf e).set j v ++ buf.drop (e * s + s)

/-- In-place write of flat position `e*s + j` of the bank. -/
def bankWrite (s : Nat) (buf : List ℚ) (e j : Nat) (v : ℚ) : List ℚ :=
  buf.set (e * s + j) v

theorem bankSlice_join (s : Nat) (ws : List (List ℚ))
    (hs : ∀ w ∈ ws, w.length = s) :
    ∀ e < ws.length, bankSlice s (pack_params_bank ws) e = ws.getD e [] := by
  induction ws with
  | nil => intro e he; simp at he
  | cons w rest ih =>
    intro e he
    cases e with
    | zero =>
      simp only [bankSlice, pack_params_bank, List.flatten_cons, Nat.zero_mul,
        List.drop_zero, List.getD_cons_zero]
      exact List.take_left' (hs w (List.mem_cons_self _ _))
    | succ e =>
      have hw : w.length = s := hs w (List.mem_cons_self _ _)
      have hdrop : (pack_params_bank (w :: rest)).drop (Nat.succ e * s) =
          (pack_params_bank rest).drop (e * s) := by
        simp only [pack_params_bank, List.flatten_cons]
        rw [Nat.succ_mul, Nat.add_comm (e * s) s, ← List.drop_drop,
          List.drop_left' hw]
      simp only [bankSlice, hdrop, List.getD_cons_succ]
      exact ih (fun x hx => hs x (List.mem_cons_of_mem _ hx)) e
        (Nat.lt_of_succ_lt_succ he)

theorem set_slice_eq (buf : List ℚ) (n s j : Nat) (v : ℚ) (hj : j < s) :
    buf.take n ++ ((buf.drop n).take s).set j v ++ buf.drop (n + s) =
      buf.set (n + j) v := by
  have h1 : ((buf.drop n).take s).set j v = ((buf.set (n + j) v).drop n).take s := by
    rw [← List.set_take, List.set_drop]
  have h2 : buf.take n = (buf.set (n + j) v).take n := by
    rw [List.set_take, List.set_eq_of_length_le]
    exact Nat.le_trans (List.length_take_le n buf) (Nat.le_add_right n j)
  have h3 : buf.drop (n + s) = (buf.set (n + j) v).drop (n + s) := by
    rw [List.drop_set, if_pos (by omega)]
  rw [h1, h2, h3, ← List.drop_drop s n _, List.append_assoc,
    List.take_append_drop, List.take_append_drop]

theorem expertViewWrite_eq_bankWrite (s : Nat) (buf : List ℚ) (e j : Nat)
    (v : ℚ) (hj : j < s) :
    expertViewWrite s buf e j v = bankWrite s buf e j v :=
  set_slice_eq buf (e * s) s j v hj

theorem bankRead_eq_getD (s : Nat) (buf : List ℚ) (e j : Nat) (hj : j < s) :
    bankRead s buf e j = buf.getD (e * s + j) 0 := by
  simp only [bankRead, bankSlice, List.getD_eq_getElem?_getD,
    List.getElem?_take_of_lt hj, List.getElem?_drop]

theorem index_inj (s e j e' j' : Nat) (hj : j < s) (hj' : j' < s)
    (h : e * s + j = e' * s + j') : e = e' ∧ j = j' := by
  rcases Nat.lt_trichotomy e e' with hlt | heq | hgt
  · exfalso
    have : e * s + j < e' * s + j' := by
      calc e * s + j < e * s + s := by omega
        _ = (e + 1) * s := by ring
        _ ≤ e' * s := Nat.mul_le_mul_right s hlt
        _ ≤ e' * s + j' := Nat.le_add_right _ _
    omega
  · subst heq; omega
  · exfalso
    have : e' * s + j' < e * s + j := by
      calc e' * s + j' < e' * s + s := by omega
        _ = (e' + 1) * s := by ring
        _ ≤ e * s := Nat.mul_le_mul_right s hgt
        _ ≤ e * s + j := Nat.le_add_right _ _
    omega

/-- C2: after `pack_params`, expert views alias the packed bank: the bank
slice for expert `e` is exactly the weight that expert owned before
packing; writing through an expert's view is the same state change as
writing the bank's flat position; the written value is visible through the
bank; untouched positions are unchanged. -/
theorem claim_C2_pack_aliasing (s : Nat) :
    (∀ ws : List (List ℚ), (∀ w ∈ ws, w.length = s) → ∀ e < ws.length,
      bankSlice s (pack_params_bank ws) e = ws.getD e []) ∧
    (∀ buf : List ℚ, ∀ e j v, j < s →
      expertViewWrite s buf e j v = bankWrite s buf e j v) ∧
    (∀ buf : List ℚ, ∀ e j v, j < s → e * s + j < buf.length →
      bankRead s (expertViewWrite s buf e j v) e j = v) ∧
    (∀ buf : List ℚ, ∀ e j e' j' v, j < s → j' < s → ¬(e = e' ∧ j = j') →
      bankRead s (expertViewWrite s buf e j v) e' j' = bankRead s buf e' j') := by
  refine ⟨fun ws hws e he => bankSlice_join s ws hws e he,
    fun buf e j v hj => expertViewWrite_eq_bankWrite s buf e j v hj,
    ?_, ?_⟩
  · intro buf e j v hj hlen
    rw [expertViewWrite_eq_bankWrite s buf e j v hj, bankRead_eq_getD s _ e j hj,
      bankWrite, List.getD_eq_getElem?_getD, List.getElem?_set_self hlen]
    rfl
  · intro buf e j e' j' v hj hj' hne
    rw [expertViewWrite_eq_bankWrite s buf e j v hj, bankRead_eq_getD s _ e' j' hj',
      bankRead_eq_getD s buf e' j' hj', bankWrite, List.getD_eq_getElem?_getD,
      List.getD_eq_getElem?_getD, List.getElem?_set_ne]
    intro h
    exact hne (index_inj s e j e' j' hj hj' h)

theorem claim_C2_pack_aliasing_witness :
    bankSlice 2 (pack_params_bank [[1, 2], [3, 4]]) 1 = [3, 4] ∧
    expertViewWrite 2 [1, 2, 3, 4] 1 0 9 = bankWrite 2 [1, 2, 3, 4] 1 0 9 ∧
    bankRead 2 (expertViewWrite 2 [(1 : ℚ), 2, 3, 4] 1 0 9) 1 0 = 9 ∧
    bankRead 2 (expertViewWrite 2 [(1 : ℚ), 2, 3, 4] 1 0 9) 0 1 =
      bankRead 2 [(1 : ℚ), 2, 3, 4] 0 1 := by
  have h := claim_C2_pack_aliasing 2
  exact ⟨h.1 [[1, 2], [3, 4]] (by decide) 1 (by decide),
    h.2.1 [1, 2, 3, 4] 1 0 9 (by decide),
    h.2.2.1 [1, 2, 3, 4] 1 0 9 (by decide) (by decide),
    h.2.2.2 [1, 2, 3, 4] 1 0 0 1 9 (by decide) (by decide) (by decide)⟩

/-! ## Construction state (DeepseekMLP.__init__, DeepseekMoE.__init__)

Weight tensors are freshly allocated (zero-initialised here); what matters
for the construction claims is which projection attributes exist in each
layout mode, the recorded dimensions and the `reduce_results` flags.
Fallible construction is `Except String`, a `ValueError` / `AssertionError`
/ `AttributeError` becoming `.error msg`. -/

/-- The quantization backend query surface (`linear_method.quant_config`):
`merge_weight()` decides whether fused weight layouts are permitted. -/
structure QuantConfig where
  mergeWeight : Bool
  deriving DecidableEq

/-- The model configuration fields read by this file. -/
structure DeepseekConfig where
  hidden_size : Nat
  intermediate_size : Nat
  moe_intermediate_size : Nat
  hidden_act : String
  n_routed_experts : Option Nat
  num_experts_per_tok : Nat
  norm_topk_prob : Bool
  n_shared_experts : Option Nat
  first_k_dense_replace : Nat
  moe_layer_freq : Nat
  num_attention_heads : Nat
  num_key_value_heads : Nat
  deriving DecidableEq

def unsupportedActMsg (act : String) : String :=
  "Unsupported activation: " ++ act ++ ". Only silu is supported for now."

def tpGtExpertsMsg (tp n : Nat) : String :=
  "Tensor parallel size " ++ toString tp ++
    " is greater than the number of experts " ++ toString n ++ "."

def noGateUpProjMsg : String :=
  "AttributeError: DeepseekMLP object has no attribute gate_up_proj"

/-- The state of a constructed `DeepseekMLP`: the chosen layout mode, the
projection attributes that exist in that mode, and the flags/dimensions
recorded at construction. -/
structure MLPState where
  merge_weight : Bool
  gate_up_proj : Option (List (List ℚ))
  gate_proj : Option (List (List ℚ))
  up_proj : Option (List (List ℚ))
  down_proj : List (List ℚ)
  reduce_results : Bool
  hiddenDim : Nat
  interDim : Nat
  deriving DecidableEq, Inhabited

/-- `DeepseekMLP.__init__` (lines 58–92): pick split layout iff a
quantization method is present and forbids fused weights; build the
projections; reject any activation other than `"silu"`. -/
def mkMLP (hidden_size intermediate_size : Nat) (hidden_act : String)
    (linear_method : Option QuantConfig) (reduce_results : Bool) :
    Except String MLPState :=
  let splitMode : Bool :=
    match linear_method with
    | some q => !q.mergeWeight
    | none => false
  let base : MLPState :=
    if splitMode then
      { merge_weight := false,
        gate_up_proj := none,
        gate_proj := some (zeroMat intermediate_size hidden_size),
        up_proj := some (zeroMat intermediate_size hidden_size),
        down_proj := zeroMat hidden_size intermediate_size,
        reduce_results := reduce_results,
        hiddenDim := hidden_size, interDim := intermediate_size }
    else
      { merge_weight := true,
        gate_up_proj := some (zeroMat (2 * intermediate_size) hidden_size),
        gate_proj := none,
        up_proj := none,
        down_proj := zeroMat hidden_size intermediate_size,
        reduce_results := reduce_results,
        hiddenDim := hidden_size, interDim := intermediate_size }
  if hidden_act ≠ "silu" then Except.error (unsupportedActMsg hidden_act)
  else Except.ok base

/-- The per-projection weight gather of `pack_params` (lines 149–154):
reading `expert.gate_up_proj.weight` raises `AttributeError` for an expert
built in split mode. -/
def gatherGateUp : List MLPState → Except String (List (List (List ℚ)))
  | [] => Except.ok []
  | ex :: rest =>
    match ex.gate_up_proj with
    | some w => do
      let ws ← gatherGateUp rest
      Except.ok (w :: ws)
    | none => Except.error noGateUpProjMsg

/-- `DeepseekMoE.pack_params` (lines 149–166), at bank granularity: gather
each expert's `gate_up_proj.weight` into bank `w1` and `down_proj.weight`
into bank `w2` (the byte-level aliasing of the flattening is proved
separately on the flat model above). -/
def pack_params (experts : List MLPState) :
    Except String (List (List (List ℚ)) × List (List (List ℚ))) := do
  let w1 ← gatherGateUp experts
  let w2 := experts.map (fun ex => ex.down_proj)
  Except.ok (w1, w2)

/-- The `nn.ModuleList` comprehension of line 124–131: one expert MLP per
routed expert, each with `reduce_results=False`. -/
def mkExperts (hidden_size moe_intermediate_size : Nat) (hidden_act : String)
    (linear_method : Option QuantConfig) : Nat → Except String (List MLPState)
  | 0 => Except.ok []
  | Nat.succ n => do
    let ex ← mkMLP hidden_size moe_intermediate_size hidden_act linear_method false
    let rest ← mkExperts hidden_size moe_intermediate_size hidden_act linear_method n
    Except.ok (ex :: rest)

/-- The state of a constructed `DeepseekMoE`. -/
structure MoEState where
  n_routed_experts : Nat
  top_k : Nat
  norm_topk_prob : Bool
  experts : List MLPState
  w1 : List (List (List ℚ))
  w2 : List (List (List ℚ))
  gate : List (List ℚ)
  shared_experts : Option MLPState
  n_shared_experts_cfg : Option Nat
  deriving DecidableEq, Inhabited

/-- `DeepseekMoE.__init__` (lines 108–147): validate `tp_size` against the
expert count before building anything, build the experts
(`reduce_results=False`), pack their weights, build the replicated gate,
and, when configured, the shared-expert MLP over
`moe_intermediate_size * n_shared_experts` (`reduce_results=False`).
`mkShared` is the shared-experts branch (lines 139–147); `mkMoE` the whole
constructor. -/
def mkShared (hidden_size moe_intermediate_size : Nat) (hidden_act : String)
    (linear_method : Option QuantConfig) :
    Option Nat → Except String (Option MLPState)
  | some ns => do
    let se ← mkMLP hidden_size (moe_intermediate_size * ns) hidden_act
      linear_method false
    Except.ok (some se)
  | none => Except.ok none

def mkMoE (cfg : DeepseekConfig) (tp_size : Nat)
    (linear_method : Option QuantConfig) : Except String MoEState :=
  let n := cfg.n_routed_experts.getD 0
  if tp_size > n then Except.error (tpGtExpertsMsg tp_size n)
  else do
    let experts ← mkExperts cfg.hidden_size cfg.moe_intermediate_size
      cfg.hidden_act linear_method n
    let banks ← pack_params experts
    let gate := zeroMat n cfg.hidden_size
    let shared ← mkShared cfg.hidden_size cfg.moe_intermediate_size
      cfg.hidden_act linear_method cfg.n_shared_experts
    Except.ok
      { n_routed_experts := n, top_k := cfg.num_experts_per_tok,
        norm_topk_prob := cfg.norm_topk_prob, experts := experts,
        w1 := banks.1, w2 := banks.2, gate := gate, shared_experts := shared,
        n_shared_experts_cfg := cfg.n_shared_experts }

/-! ## Forward passes with explicit all-reduce accounting

The cross-worker all-reduce is an abstract `reduceOp`; every forward
returns its value together with the number of all-reduce calls it made. -/

/-- `SiluAndMul` (external activation op): split `gate_up` at the midpoint
into `[gate, up]` and return `act(gate) * up` elementwise; the silu
nonlinearity itself is the abstract parameter `a`. -/
def SiluAndMul (a : ℚ → ℚ) (gate_up : List ℚ) : List ℚ :=
  let d := gate_up.length / 2
  (List.range d).map (fun j => a (gate_up.getD j 0) * gate_up.getD (d + j) 0)

/-- Modelled from the spec: `RowParallelLinear.forward` (defined in
`aphrodite/modeling/layers/linear.py`, not part of this file) multiplies
by the down/output projection weight and, exactly when `reduce_results`
is set, sum-reduces the result across the tensor-parallel group — one
all-reduce; with `reduce_results=False` it performs no communication. -/
def rowParallelForward (reduceOp : List ℚ → List ℚ) (W : List (List ℚ))
    (reduce_results : Bool) (x : List ℚ) : List ℚ × Nat :=
  if reduce_results then (reduceOp (matvec W x), 1) else (matvec W x, 0)

/-- `DeepseekMLP.forward` (lines 94–103): fused mode computes `gate_up` in
one projection; split mode computes `gate` and `up` separately and
concatenates `[gate, up]`; then `SiluAndMul` and the down projection. -/
def mlpForward (a : ℚ → ℚ) (reduceOp : List ℚ → List ℚ) (m : MLPState)
    (x : List ℚ) : List ℚ × Nat :=
  let gate_up :=
    if m.merge_weight then matvec (m.gate_up_proj.getD []) x
    else matvec (m.gate_proj.getD []) x ++ matvec (m.up_proj.getD []) x
  rowParallelForward reduceOp m.down_proj m.reduce_results (SiluAndMul a gate_up)

def addMat (A B : List (List ℚ)) : List (List ℚ) :=
  List.zipWith (List.zipWith (· + ·)) A B

/-- `DeepseekMoE.forward` (lines 168–197): shared-expert output on every
token when configured, per-token routing, the external `fused_moe` kernel
(abstract parameter `fused_moe`, no communication), addition of the
shared output, and the single `tensor_model_parallel_all_reduce` applied
to the combined result (counted by the `+ 1`). -/
def moeForward (a e : ℚ → ℚ) (reduceOp : List ℚ → List ℚ)
    (fused_moe : List (List ℚ) → List (List (List ℚ)) → List (List (List ℚ)) →
      List (List ℚ) → List (List Nat) → List (List ℚ))
    (st : MoEState) (tokens : List (List ℚ)) : List (List ℚ) × Nat :=
  let shared_output : List (List ℚ) :=
    if st.n_shared_experts_cfg.isSome then
      tokens.map (fun t => (mlpForward a reduceOp (st.shared_experts.getD default) t).1)
    else []
  let sharedReduces : Nat :=
    if st.n_shared_experts_cfg.isSome then
      (tokens.map (fun t => (mlpForward a reduceOp (st.shared_experts.getD default) t).2)).sum
    else 0
  let routing_weights := tokens.map
    (fun t => (moeRouting e st.norm_topk_prob st.top_k st.gate t).1)
  let selected_experts := tokens.map
    (fun t => (moeRouting e st.norm_topk_prob st.top_k st.gate t).2)
  let final0 := fused_moe tokens st.w1 st.w2 routing_weights selected_experts
  let final1 :=
    if st.n_shared_experts_cfg.isSome then addMat final0 shared_output
    else final0
  (final1.map reduceOp, sharedReduces + 1)

/-! ### Except bind reductions -/

theorem exceptBind_ok {ε α β : Type} (a : α) (f : α → Except ε β) :
    (Except.ok a >>= f) = f a := rfl

theorem exceptBind_err {ε α β : Type} (msg : ε) (f : α → Except ε β) :
    ((Except.error msg : Except ε α) >>= f) = Except.error msg := rfl

/-! ### Construction lemmas -/

theorem mkMLP_act_ne (h i : Nat) (act : String) (lm : Option QuantConfig)
    (r : Bool) (hact : act ≠ "silu") :
    mkMLP h i act lm r = Except.error (unsupportedActMsg act) := by
  simp [mkMLP, hact]

theorem mkMLP_fields (h i : Nat) (act : String) (lm : Option QuantConfig)
    (r : Bool) (m : MLPState) (hok : mkMLP h i act lm r = Except.ok m) :
    m.reduce_results = r ∧ m.interDim = i ∧ m.hiddenDim = h := by
  by_cases hact : act = "silu"
  · subst hact
    simp only [mkMLP, ne_eq, not_true_eq_false, if_false, reduceIte,
      Except.ok.injEq] at hok
    split at hok <;> (subst hok; exact ⟨rfl, rfl, rfl⟩)
  · rw [mkMLP_act_ne h i act lm r hact] at hok
    exact Except.noConfusion hok

theorem mkMLP_split_fields (h i : Nat) (act : String) (q : QuantConfig)
    (r : Bool) (m : MLPState) (hq : q.mergeWeight = false)
    (hok : mkMLP h i act (some q) r = Except.ok m) :
    m.merge_weight = false ∧ m.gate_up_proj = none ∧
      m.gate_proj.isSome = true ∧ m.up_proj.isSome = true := by
  by_cases hact : act = "silu"
  · subst hact
    simp only [mkMLP, hq, Bool.not_false, if_true, ne_eq, not_true_eq_false,
      if_false, reduceIte, Except.ok.injEq] at hok
    subst hok
    exact ⟨rfl, rfl, rfl, rfl⟩
  · rw [mkMLP_act_ne h i act (some q) r hact] at hok
    exact Except.noConfusion hok

theorem mkExperts_err_of_act (h i : Nat) (act : String)
    (lm : Option QuantConfig) (n : Nat) (hact : act ≠ "silu") (hn : 1 ≤ n) :
    mkExperts h i act lm n = Except.error (unsupportedActMsg act) := by
  cases n with
  | zero => omega
  | succ n =>
    simp only [mkExperts]
    rw [mkMLP_act_ne h i act lm false hact]
    rfl

theorem mkExperts_mem (h i : Nat) (act : String) (lm : Option QuantConfig)
    (n : Nat) (es : List MLPState)
    (hok : mkExperts h i act lm n = Except.ok es) :
    ∀ ex ∈ es, mkMLP h i act lm false = Except.ok ex := by
  induction n generalizing es with
  | zero =>
    simp only [mkExperts, Except.ok.injEq] at hok
    subst hok
    intro ex hex
    simp at hex
  | succ n ih =>
    simp only [mkExperts] at hok
    cases hm : mkMLP h i act lm false with
    | error msg =>
      rw [hm, exceptBind_err] at hok
      exact Except.noConfusion hok
    | ok ex0 =>
      rw [hm, exceptBind_ok] at hok
      cases hr : mkExperts h i act lm n with
      | error msg =>
        rw [hr, exceptBind_err] at hok
        exact Except.noConfusion hok
      | ok rest =>
        rw [hr, exceptBind_ok] at hok
        simp only [Except.ok.injEq] at hok
        subst hok
        intro ex hex
        rcases List.mem_cons.mp hex with rfl | hex
        · rfl
        · exact hm.symm.trans (ih rest hr ex hex)

theorem gatherGateUp_err_head (ex : MLPState) (rest : List MLPState)
    (hnone : ex.gate_up_proj = none) :
    gatherGateUp (ex :: rest) = Except.error noGateUpProjMsg := by
  simp [gatherGateUp, hnone]

theorem mkMoE_ok_anatomy (cfg : DeepseekConfig) (tp : Nat)
    (lm : Option QuantConfig) (st : MoEState)
    (hok : mkMoE cfg tp lm = Except.ok st) :
    st.n_shared_experts_cfg = cfg.n_shared_experts ∧
    (∀ ex ∈ st.experts,
      mkMLP cfg.hidden_size cfg.moe_intermediate_size cfg.hidden_act lm false =
        Except.ok ex) ∧
    (∀ ns, cfg.n_shared_experts = some ns → ∃ se, st.shared_experts = some se ∧
      mkMLP cfg.hidden_size (cfg.moe_intermediate_size * ns) cfg.hidden_act lm
        false = Except.ok se) ∧
    (cfg.n_shared_experts = none → st.shared_experts = none) := by
  simp only [mkMoE] at hok
  by_cases htp : tp > cfg.n_routed_experts.getD 0
  · rw [if_pos htp] at hok
    exact Except.noConfusion hok
  · rw [if_neg htp] at hok
    cases he : mkExperts cfg.hidden_size cfg.moe_intermediate_size
        cfg.hidden_act lm (cfg.n_routed_experts.getD 0) with
    | error msg =>
      rw [he, exceptBind_err] at hok
      exact Except.noConfusion hok
    | ok experts =>
      rw [he, exceptBind_ok] at hok
      cases hp : pack_params experts with
      | error msg =>
        rw [hp, exceptBind_err] at hok
        exact Except.noConfusion hok
      | ok banks =>
        rw [hp, exceptBind_ok] at hok
        cases hns : cfg.n_shared_experts with
        | none =>
          rw [hns] at hok
          simp only [mkShared, exceptBind_ok, Except.ok.injEq] at hok
          subst hok
          refine ⟨rfl, ?_, ?_, fun _ => rfl⟩
          · intro ex hex
            exact mkExperts_mem _ _ _ _ _ _ he ex hex
          · intro ns hns'
            exact Option.noConfusion hns'
        | some ns =>
          rw [hns] at hok
          simp only [mkShared] at hok
          cases hse : mkMLP cfg.hidden_size (cfg.moe_intermediate_size * ns)
              cfg.hidden_act lm false with
          | error msg =>
            simp only [hse, exceptBind_err] at hok
            exact Except.noConfusion hok
          | ok se =>
            simp only [hse, exceptBind_ok, Except.ok.injEq] at hok
            subst hok
            refine ⟨rfl, ?_, ?_, ?_⟩
            · intro ex hex
              exact mkExperts_mem _ _ _ _ _ _ he ex hex
            · intro ns' hns'
              cases hns'
              exact ⟨se, rfl, hse⟩
            · intro h
              exact Option.noConfusion h

theorem mlpForward_reduceCount (a : ℚ → ℚ) (reduceOp : List ℚ → List ℚ)
    (m : MLPState) (x : List ℚ) :
    (mlpForward a reduceOp m x).2 = if m.reduce_results then 1 else 0 := by
  cases hr : m.reduce_results <;> simp [mlpForward, rowParallelForward, hr]

/-- C4: `DeepseekMLP.forward` computes the same function in both layout
modes: a fused `gate_up_proj` whose weight stacks `[gate; up]` produces
exactly the split mode's concatenation `[gate, up]`, and the whole forward
pass (activation, down projection, optional reduction) coincides. -/
theorem claim_C4_mlp_mode_equivalence (a : ℚ → ℚ) (reduceOp : List ℚ → List ℚ)
    (Wg Wu Wd : List (List ℚ)) (r : Bool) (hD iD : Nat) (x : List ℚ) :
    matvec (Wg ++ Wu) x = matvec Wg x ++ matvec Wu x ∧
    mlpForward a reduceOp
      { merge_weight := true, gate_up_proj := some (Wg ++ Wu),
        gate_proj := none, up_proj := none, down_proj := Wd,
        reduce_results := r, hiddenDim := hD, interDim := iD } x =
    mlpForward a reduceOp
      { merge_weight := false, gate_up_proj := none, gate_proj := some Wg,
        up_proj := some Wu, down_proj := Wd, reduce_results := r,
        hiddenDim := hD, interDim := iD } x := by
  refine ⟨matvec_append Wg Wu x, ?_⟩
  simp [mlpForward, matvec_append]

/-- C9: `DeepseekMoE` construction fails with the tensor-parallel
configuration error whenever `tp_size > n_routed_experts` — and with that
specific error for every configuration, in particular also when the
activation is unsupported, because the check precedes expert construction;
and `DeepseekMLP` construction rejects any activation other than silu. -/
theorem claim_C9_fatal_validation :
    (∀ (cfg : DeepseekConfig) (tp : Nat) (lm : Option QuantConfig) (n : Nat),
      cfg.n_routed_experts = some n → tp > n →
      mkMoE cfg tp lm = Except.error (tpGtExpertsMsg tp n)) ∧
    (∀ (h i : Nat) (act : String) (lm : Option QuantConfig) (r : Bool),
      act ≠ "silu" → mkMLP h i act lm r = Except.error (unsupportedActMsg act)) := by
  constructor
  · intro cfg tp lm n hn htp
    simp [mkMoE, hn, htp]
  · intro h i act lm r hact
    exact mkMLP_act_ne h i act lm r hact

theorem claim_C9_fatal_validation_witness :
    mkMoE
      { hidden_size := 8, intermediate_size := 32, moe_intermediate_size := 16,
        hidden_act := "gelu", n_routed_experts := some 2,
        num_experts_per_tok := 1, norm_topk_prob := true,
        n_shared_experts := none, first_k_dense_replace := 0,
        moe_layer_freq := 1, num_attention_heads := 4,
        num_key_value_heads := 4 } 4 none =
      Except.error (tpGtExpertsMsg 4 2) ∧
    mkMLP 8 16 "gelu" none true = Except.error (unsupportedActMsg "gelu") := by
  have h := claim_C9_fatal_validation
  exact ⟨h.1 _ 4 none 2 rfl (by decide), h.2 8 16 "gelu" none true (by decide)⟩

theorem mkMLP_silu_ok (h i : Nat) (lm : Option QuantConfig) (r : Bool) :
    ∃ m, mkMLP h i "silu" lm r = Except.ok m := by
  simp only [mkMLP, ne_eq, not_true_eq_false, if_false, reduceIte]
  exact ⟨_, rfl⟩

theorem mkExperts_silu_ok (h i : Nat) (lm : Option QuantConfig) (n : Nat) :
    ∃ es, mkExperts h i "silu" lm n = Except.ok es := by
  induction n with
  | zero => exact ⟨[], rfl⟩
  | succ n ih =>
    rcases ih with ⟨es, hes⟩
    rcases mkMLP_silu_ok h i lm false with ⟨m, hm⟩
    refine ⟨m :: es, ?_⟩
    simp only [mkExperts]
    rw [hm, exceptBind_ok, hes, exceptBind_ok]

/-- C10: with a quantization backend that forbids fused layouts
(`merge_weight()` false), each expert MLP is built in split mode — with
`gate_proj`/`up_proj` but no `gate_up_proj` — yet `pack_params` reads
every expert's `gate_up_proj.weight`, so `DeepseekMoE` construction always
fails (for any positive worker count), even though the dense block itself
supports the split mode. -/
theorem claim_C10_moe_requires_fused_layout :
    (∀ (h i : Nat) (act : String) (q : QuantConfig) (r : Bool) (m : MLPState),
      q.mergeWeight = false → mkMLP h i act (some q) r = Except.ok m →
      m.merge_weight = false ∧ m.gate_up_proj = none ∧
        m.gate_proj.isSome = true ∧ m.up_proj.isSome = true) ∧
    (∀ (cfg : DeepseekConfig) (tp : Nat) (q : QuantConfig),
      q.mergeWeight = false → 1 ≤ tp →
      ∃ msg, mkMoE cfg tp (some q) = Except.error msg) := by
  constructor
  · intro h i act q r m hq hok
    exact mkMLP_split_fields h i act q r m hq hok
  · intro cfg tp q hq htp
    by_cases hgt : tp > cfg.n_routed_experts.getD 0
    · refine ⟨tpGtExpertsMsg tp (cfg.n_routed_experts.getD 0), ?_⟩
      simp [mkMoE, hgt]
    · have hn : 1 ≤ cfg.n_routed_experts.getD 0 := by omega
      by_cases hact : cfg.hidden_act = "silu"
      · -- experts build fine but pack_params cannot read gate_up_proj
        cases hcount : cfg.n_routed_experts.getD 0 with
        | zero => omega
        | succ n0 =>
          refine ⟨noGateUpProjMsg, ?_⟩
          obtain ⟨rest, hrest⟩ := mkExperts_silu_ok cfg.hidden_size
            cfg.moe_intermediate_size (some q) n0
          have hsplit : mkMLP cfg.hidden_size cfg.moe_intermediate_size
              "silu" (some q) false = Except.ok
              { merge_weight := false, gate_up_proj := none,
                gate_proj := some (zeroMat cfg.moe_intermediate_size cfg.hidden_size),
                up_proj := some (zeroMat cfg.moe_intermediate_size cfg.hidden_size),
                down_proj := zeroMat cfg.hidden_size cfg.moe_intermediate_size,
                reduce_results := false, hiddenDim := cfg.hidden_size,
                interDim := cfg.moe_intermediate_size } := by
            simp [mkMLP, hq]
          have hpack : pack_params
              ({ merge_weight := false, gate_up_proj := none,
                 gate_proj := some (zeroMat cfg.moe_intermediate_size cfg.hidden_size),
                 up_proj := some (zeroMat cfg.moe_intermediate_size cfg.hidden_size),
                 down_proj := zeroMat cfg.hidden_size cfg.moe_intermediate_size,
                 reduce_results := false, hiddenDim := cfg.hidden_size,
                 interDim := cfg.moe_intermediate_size } :: rest) =
              Except.error noGateUpProjMsg := by
            simp [pack_params, gatherGateUp, exceptBind_err]
          simp only [mkMoE, hcount, hact, if_neg (hcount ▸ hgt), mkExperts,
            hsplit, hrest, exceptBind_ok, hpack, exceptBind_err]
      · -- unsupported activation: the first expert construction fails
        refine ⟨unsupportedActMsg cfg.hidden_act, ?_⟩
        simp only [mkMoE, if_neg hgt]
        rw [mkExperts_err_of_act _ _ _ _ _ hact hn, exceptBind_err]

/-- C5: in every `DeepseekMoE.forward` call exactly one cross-worker
all-reduce happens, applied to the fully combined output: all expert MLPs
and the shared-expert MLP are constructed with `reduce_results=False`
(the shared one over width `moe_intermediate_size * n_shared_experts`),
the shared output — computed for every token — is added to the routed
output before the all-reduce, and nothing else inside the block reduces. -/
theorem claim_C5_single_all_reduce (cfg : DeepseekConfig) (tp : Nat)
    (lm : Option QuantConfig) (st : MoEState)
    (hok : mkMoE cfg tp lm = Except.ok st)
    (a e : ℚ → ℚ) (reduceOp : List ℚ → List ℚ)
    (fused_moe : List (List ℚ) → List (List (List ℚ)) → List (List (List ℚ)) →
      List (List ℚ) → List (List Nat) → List (List ℚ))
    (tokens : List (List ℚ)) :
    (∀ ex ∈ st.experts, ex.reduce_results = false) ∧
    (∀ ns, cfg.n_shared_experts = some ns → ∃ se, st.shared_experts = some se ∧
      se.reduce_results = false ∧
      se.interDim = cfg.moe_intermediate_size * ns) ∧
    (moeForward a e reduceOp fused_moe st tokens).2 = 1 ∧
    (cfg.n_shared_experts = none →
      (moeForward a e reduceOp fused_moe st tokens).1 =
        (fused_moe tokens st.w1 st.w2
          (tokens.map (fun t => (moeRouting e st.norm_topk_prob st.top_k st.gate t).1))
          (tokens.map (fun t => (moeRouting e st.norm_topk_prob st.top_k st.gate t).2))).map
          reduceOp) ∧
    (∀ ns, cfg.n_shared_experts = some ns → ∀ se, st.shared_experts = some se →
      (moeForward a e reduceOp fused_moe st tokens).1 =
        (addMat
          (fused_moe tokens st.w1 st.w2
            (tokens.map (fun t => (moeRouting e st.norm_topk_prob st.top_k st.gate t).1))
            (tokens.map (fun t => (moeRouting e st.norm_topk_prob st.top_k st.gate t).2)))
          (tokens.map (fun t => (mlpForward a reduceOp se t).1))).map reduceOp) := by
  obtain ⟨hcfg, hexp, hshared, hnone⟩ := mkMoE_ok_anatomy cfg tp lm st hok
  refine ⟨?_, ?_, ?_, ?_, ?_⟩
  · intro ex hex
    exact (mkMLP_fields _ _ _ _ _ _ (hexp ex hex)).1
  · intro ns hns
    obtain ⟨se, hse, hmk⟩ := hshared ns hns
    obtain ⟨h1, h2, _⟩ := mkMLP_fields _ _ _ _ _ _ hmk
    exact ⟨se, hse, h1, h2⟩
  · cases hns : cfg.n_shared_experts with
    | none =>
      have h1 : st.n_shared_experts_cfg = none := hcfg.trans hns
      simp [moeForward, h1]
    | some ns =>
      obtain ⟨se, hse, hmk⟩ := hshared ns hns
      have h1 : st.n_shared_experts_cfg = some ns := hcfg.trans hns
      have hred : se.reduce_results = false := (mkMLP_fields _ _ _ _ _ _ hmk).1
      have hz : (tokens.map
          (fun t => (mlpForward a reduceOp (st.shared_experts.getD default) t).2)).sum = 0 := by
        apply List.sum_eq_zero
        intro x hx
        rcases List.mem_map.mp hx with ⟨t, _, rfl⟩
        rw [hse]
        simp [mlpForward_reduceCount, hred]
      simp [moeForward, h1, hz]
  · intro hns
    have h1 : st.n_shared_experts_cfg = none := hcfg.trans hns
    simp [moeForward, h1]
  · intro ns hns se hse
    have h1 : st.n_shared_experts_cfg = some ns := hcfg.trans hns
    simp [moeForward, h1, hse]

theorem claim_C5_single_all_reduce_witness :
    (moeForward (fun v => v) (fun _ => (1 : ℚ)) (fun y => y)
      (fun tks _ _ _ _ => tks)
      { n_routed_experts := 1, top_k := 1, norm_topk_prob := false,
        experts := [
          { merge_weight := true, gate_up_proj := some (zeroMat 2 1),
            gate_proj := none, up_proj := none, down_proj := zeroMat 1 1,
            reduce_results := false, hiddenDim := 1, interDim := 1 }],
        w1 := [zeroMat 2 1], w2 := [zeroMat 1 1], gate := zeroMat 1 1,
        shared_experts := none, n_shared_experts_cfg := none } [[1]]).2 = 1 :=
  (claim_C5_single_all_reduce
    { hidden_size := 1, intermediate_size := 1, moe_intermediate_size := 1,
      hidden_act := "silu", n_routed_experts := some 1,
      num_experts_per_tok := 1, norm_topk_prob := false,
      n_shared_experts := none, first_k_dense_replace := 0,
      moe_layer_freq := 1, num_attention_heads := 1,
      num_key_value_heads := 1 } 1 none _ (by rfl)
    (fun v => v) (fun _ => (1 : ℚ)) (fun y => y)
    (fun tks _ _ _ _ => tks) [[1]]).2.2.1

theorem claim_C10_moe_requires_fused_layout_witness :
    ∃ msg, mkMoE
      { hidden_size := 2, intermediate_size := 4, moe_intermediate_size := 3,
        hidden_act := "silu", n_routed_experts := some 2,
        num_experts_per_tok := 1, norm_topk_prob := true,
        n_shared_experts := none, first_k_dense_replace := 0,
        moe_layer_freq := 1, num_attention_heads := 2,
        num_key_value_heads := 2 } 1 (some { mergeWeight := false }) =
      Except.error msg :=
  claim_C10_moe_requires_fused_layout.2 _ 1 { mergeWeight := false } rfl
    (le_refl 1)

/-! ## Attention (DeepseekAttention, lines 200–302) -/

/-- The state of a constructed `DeepseekAttention`: head bookkeeping and
the projections existing in the chosen layout mode. -/
structure AttnState where
  total_num_heads : Nat
  num_heads : Nat
  total_num_kv_heads : Nat
  num_kv_heads : Nat
  head_dim : Nat
  q_size : Nat
  kv_size : Nat
  merge_weight : Bool
  qkv_proj : Option (List (List ℚ))
  q_proj : Option (List (List ℚ))
  k_proj : Option (List (List ℚ))
  v_proj : Option (List (List ℚ))
  o_proj : List (List ℚ)
  deriving DecidableEq, Inhabited

def assertHeadsMsg : String := "AssertionError: total_num_heads % tp_size == 0"

def assertKvDivMsg : String := "AssertionError: total_num_kv_heads % tp_size == 0"

def assertTpDivMsg : String := "AssertionError: tp_size % total_num_kv_heads == 0"

/-- `DeepseekAttention.__init__` (lines 202–281): assert the query heads
divide evenly over the workers; assert the kv heads either divide evenly
over the workers (when `total_num_kv_heads ≥ tp_size`) or evenly divide
the worker count (when fewer); per-worker counts
`num_heads = total // tp`, `num_kv_heads = max(1, total_kv // tp)`;
build fused `qkv_proj` or split `q/k/v_proj` by quantization mode, and
`o_proj` (which reduces its results: `RowParallelLinear` default). -/
def mkAttention (hidden_size num_heads num_kv_heads tp_size : Nat)
    (linear_method : Option QuantConfig) : Except String AttnState :=
  if ¬ (num_heads % tp_size = 0) then Except.error assertHeadsMsg
  else if num_kv_heads ≥ tp_size ∧ ¬ (num_kv_heads % tp_size = 0) then
    Except.error assertKvDivMsg
  else if num_kv_heads < tp_size ∧ ¬ (tp_size % num_kv_heads = 0) then
    Except.error assertTpDivMsg
  else
    let nh := num_heads / tp_size
    let nkv := max 1 (num_kv_heads / tp_size)
    let hd := hidden_size / num_heads
    let splitMode : Bool :=
      match linear_method with
      | some q => !q.mergeWeight
      | none => false
    Except.ok
      { total_num_heads := num_heads, num_heads := nh,
        total_num_kv_heads := num_kv_heads, num_kv_heads := nkv,
        head_dim := hd, q_size := nh * hd, kv_size := nkv * hd,
        merge_weight := !splitMode,
        qkv_proj := if splitMode then none
          else some (zeroMat ((nh + 2 * nkv) * hd) hidden_size),
        q_proj := if splitMode then some (zeroMat (nh * hd) hidden_size) else none,
        k_proj := if splitMode then some (zeroMat (nkv * hd) hidden_size) else none,
        v_proj := if splitMode then some (zeroMat (nkv * hd) hidden_size) else none,
        o_proj := zeroMat hidden_size (nh * hd) }

/-- `DeepseekAttention.forward` QKV projection (lines 290–297): fused mode
splits the single projection output at sizes `[q_size, kv_size, kv_size]`
into `[Q, K, V]`; split mode computes the three projections directly. -/
def attnQKV (st : AttnState) (x : List ℚ) : List ℚ × List ℚ × List ℚ :=
  if st.merge_weight then
    let qkv := matvec (st.qkv_proj.getD []) x
    (qkv.take st.q_size, (qkv.drop st.q_size).take st.kv_size,
      (qkv.drop st.q_size).drop st.kv_size)
  else
    (matvec (st.q_proj.getD []) x, matvec (st.k_proj.getD []) x,
      matvec (st.v_proj.getD []) x)

/-- `DeepseekAttention.forward` (lines 283–302): project to Q/K/V, apply
rotary embedding to Q and K only (`rope` is the external provider), call
the external paged-attention operator (`attnOp`, closing over the KV
cache and metadata) on rotated Q/K and raw V, and apply the output
projection, which always all-reduces. -/
def attnForward (rope : List Nat → List ℚ → List ℚ → List ℚ × List ℚ)
    (attnOp : List ℚ → List ℚ → List ℚ → List ℚ)
    (reduceOp : List ℚ → List ℚ) (st : AttnState)
    (positions : List Nat) (x : List ℚ) : List ℚ × Nat :=
  let qkv := attnQKV st x
  let rotated := rope positions qkv.1 qkv.2.1
  let attn_output := attnOp rotated.1 rotated.2 qkv.2.2
  rowParallelForward reduceOp st.o_proj true attn_output

theorem mkAttention_ok_iff (hidden heads kv tp : Nat)
    (lm : Option QuantConfig) :
    (∃ st, mkAttention hidden heads kv tp lm = Except.ok st) ↔
      (heads % tp = 0 ∧ ¬(kv ≥ tp ∧ ¬kv % tp = 0) ∧
        ¬(kv < tp ∧ ¬tp % kv = 0)) := by
  unfold mkAttention
  by_cases c1 : heads % tp = 0
  · rw [if_neg (not_not_intro c1)]
    by_cases c2 : kv ≥ tp ∧ ¬kv % tp = 0
    · rw [if_pos c2]
      constructor
      · rintro ⟨st, hst⟩; exact Except.noConfusion hst
      · rintro ⟨_, hc2, _⟩; exact absurd c2 hc2
    · rw [if_neg c2]
      by_cases c3 : kv < tp ∧ ¬tp % kv = 0
      · rw [if_pos c3]
        constructor
        · rintro ⟨st, hst⟩; exact Except.noConfusion hst
        · rintro ⟨_, _, hc3⟩; exact absurd c3 hc3
      · rw [if_neg c3]
        exact ⟨fun _ => ⟨c1, c2, c3⟩, fun _ => ⟨_, rfl⟩⟩
  · rw [if_pos c1]
    constructor
    · rintro ⟨st, hst⟩; exact Except.noConfusion hst
    · rintro ⟨hc1, _⟩; exact absurd hc1 c1

theorem mkAttention_ok_fields (hidden heads kv tp : Nat)
    (lm : Option QuantConfig) (st : AttnState)
    (hok : mkAttention hidden heads kv tp lm = Except.ok st) :
    st.num_heads = heads / tp ∧ st.num_kv_heads = max 1 (kv / tp) ∧
      st.q_size = st.num_heads * st.head_dim ∧
      st.kv_size = st.num_kv_heads * st.head_dim ∧
      st.head_dim = hidden / heads := by
  unfold mkAttention at hok
  by_cases c1 : heads % tp = 0
  · rw [if_neg (not_not_intro c1)] at hok
    by_cases c2 : kv ≥ tp ∧ ¬kv % tp = 0
    · rw [if_pos c2] at hok
      exact Except.noConfusion hok
    · rw [if_neg c2] at hok
      by_cases c3 : kv < tp ∧ ¬tp % kv = 0
      · rw [if_pos c3] at hok
        exact Except.noConfusion hok
      · rw [if_neg c3] at hok
        simp only [Except.ok.injEq] at hok
        subst hok
        exact ⟨rfl, rfl, rfl, rfl, rfl⟩
  · rw [if_pos c1] at hok
    exact Except.noConfusion hok

/-- C7 (counterexample): the claim's acceptance condition — each of the
head counts is divisible by or divides the worker count — holds at
`total_heads = 2`, `total_kv_heads = 4`, `tp_size = 4` (2 divides 4, and
4 % 4 = 0), yet construction fails: the code accepts query heads only
when they are divisible by the worker count, with no replication path. -/
theorem claim_C7_head_compat_counterexample :
    ((2 % 4 = 0 ∨ 4 % 2 = 0) ∧ (4 % 4 = 0 ∨ 4 % 4 = 0)) ∧
    mkAttention 64 2 4 4 none = Except.error assertHeadsMsg := by
  exact ⟨⟨Or.inr rfl, Or.inl rfl⟩, rfl⟩

/-- C7 (amended): `DeepseekAttention` construction succeeds iff the query
heads are evenly divisible by the worker count (no replication option for
query heads) and the kv heads are either evenly divisible by it or evenly
divide it; in every accepted configuration the per-worker head and
kv-head counts are at least 1, with
`num_heads * tp_size = total_heads` and `num_kv_heads = max 1 (kv / tp)`. -/
theorem claim_C7_head_partitioning (hidden heads kv tp : Nat)
    (lm : Option QuantConfig) (h1 : 1 ≤ tp) (h2 : 1 ≤ heads) (h3 : 1 ≤ kv) :
    ((∃ st, mkAttention hidden heads kv tp lm = Except.ok st) ↔
      (heads % tp = 0 ∧ (kv % tp = 0 ∨ tp % kv = 0))) ∧
    (∀ st, mkAttention hidden heads kv tp lm = Except.ok st →
      1 ≤ st.num_heads ∧ 1 ≤ st.num_kv_heads ∧ st.num_heads * tp = heads ∧
        st.num_kv_heads = max 1 (kv / tp)) := by
  constructor
  · rw [mkAttention_ok_iff]
    constructor
    · rintro ⟨c1, c2, c3⟩
      refine ⟨c1, ?_⟩
      by_cases hlt : kv < tp
      · right
        by_contra h
        exact c3 ⟨hlt, h⟩
      · left
        by_contra h
        exact c2 ⟨Nat.le_of_not_lt hlt, h⟩
    · rintro ⟨c1, hor⟩
      refine ⟨c1, ?_, ?_⟩
      · rintro ⟨hge, hmod⟩
        rcases hor with h | h
        · exact hmod h
        · have hkd : kv ∣ tp := Nat.dvd_of_mod_eq_zero h
          have hle : kv ≤ tp := Nat.le_of_dvd (by omega) hkd
          have heq : kv = tp := le_antisymm hle hge
          exact hmod (by rw [heq]; exact Nat.mod_self tp)
      · rintro ⟨hlt, hmod⟩
        rcases hor with h | h
        · have hd : tp ∣ kv := Nat.dvd_of_mod_eq_zero h
          have := Nat.le_of_dvd (by omega) hd
          omega
        · exact hmod h
  · intro st hok
    obtain ⟨hnh, hnkv, _, _, _⟩ :=
      mkAttention_ok_fields hidden heads kv tp lm st hok
    have hconds := (mkAttention_ok_iff hidden heads kv tp lm).mp ⟨st, hok⟩
    have hdvd : tp ∣ heads := Nat.dvd_of_mod_eq_zero hconds.1
    have hle : tp ≤ heads := Nat.le_of_dvd (by omega) hdvd
    refine ⟨?_, ?_, ?_, hnkv⟩
    · rw [hnh]
      exact (Nat.one_le_div_iff (by omega)).mpr hle
    · rw [hnkv]
      exact le_max_left 1 _
    · rw [hnh]
      exact Nat.div_mul_cancel hdvd

theorem claim_C7_head_partitioning_witness :
    ∃ st, mkAttention 64 8 2 4 none = Except.ok st :=
  ((claim_C7_head_partitioning 64 8 2 4 none (by decide) (by decide)
    (by decide)).1).mpr ⟨by decide, Or.inr (by decide)⟩

theorem matvec_triple_split (Wq Wk Wv : List (List ℚ)) (x : List ℚ)
    (qs ks : Nat) (hq : Wq.length = qs) (hk : Wk.length = ks) :
    ((matvec (Wq ++ Wk ++ Wv) x).take qs = matvec Wq x) ∧
    (((matvec (Wq ++ Wk ++ Wv) x).drop qs).take ks = matvec Wk x) ∧
    (((matvec (Wq ++ Wk ++ Wv) x).drop qs).drop ks = matvec Wv x) := by
  have hm : matvec (Wq ++ Wk ++ Wv) x =
      matvec Wq x ++ (matvec Wk x ++ matvec Wv x) := by
    rw [matvec_append, matvec_append, List.append_assoc]
  have hql : (matvec Wq x).length = qs := by rw [matvec_length, hq]
  have hkl : (matvec Wk x).length = ks := by rw [matvec_length, hk]
  refine ⟨?_, ?_, ?_⟩
  · rw [hm, List.take_left' hql]
  · rw [hm, List.drop_left' hql, List.take_left' hkl]
  · rw [hm, List.drop_left' hql, List.drop_left' hkl]

/-- C8: the combined projection is ordered `[Q, K, V]` with slice sizes
`(num_heads*head_dim, num_kv_heads*head_dim, num_kv_heads*head_dim)` in
both layout modes (fused-QKV and split), the two modes compute the same
forward function, rotary encoding is applied to Q and K only while V
reaches the attention operator as the raw projection, and the result goes
through the output projection with its own all-reduce (count 1). -/
theorem claim_C8_attention_forward (nh nkv hd tnh tnkv : Nat)
    (Wq Wk Wv Wo : List (List ℚ))
    (rope : List Nat → List ℚ → List ℚ → List ℚ × List ℚ)
    (attnOp : List ℚ → List ℚ → List ℚ → List ℚ)
    (reduceOp : List ℚ → List ℚ) (pos : List Nat) (x : List ℚ)
    (hq : Wq.length = nh * hd) (hk : Wk.length = nkv * hd)
    (hv : Wv.length = nkv * hd) :
    attnQKV ⟨tnh, nh, tnkv, nkv, hd, nh * hd, nkv * hd, true,
        some (Wq ++ Wk ++ Wv), none, none, none, Wo⟩ x =
      (matvec Wq x, matvec Wk x, matvec Wv x) ∧
    attnQKV ⟨tnh, nh, tnkv, nkv, hd, nh * hd, nkv * hd, false,
        none, some Wq, some Wk, some Wv, Wo⟩ x =
      (matvec Wq x, matvec Wk x, matvec Wv x) ∧
    attnForward rope attnOp reduceOp
      ⟨tnh, nh, tnkv, nkv, hd, nh * hd, nkv * hd, true,
        some (Wq ++ Wk ++ Wv), none, none, none, Wo⟩ pos x =
    attnForward rope attnOp reduceOp
      ⟨tnh, nh, tnkv, nkv, hd, nh * hd, nkv * hd, false,
        none, some Wq, some Wk, some Wv, Wo⟩ pos x ∧
    attnForward rope attnOp reduceOp
      ⟨tnh, nh, tnkv, nkv, hd, nh * hd, nkv * hd, true,
        some (Wq ++ Wk ++ Wv), none, none, none, Wo⟩ pos x =
      (reduceOp (matvec Wo (attnOp
        (rope pos (matvec Wq x) (matvec Wk x)).1
        (rope pos (matvec Wq x) (matvec Wk x)).2
        (matvec Wv x))), 1) := by
  obtain ⟨hsq, hsk, hsv⟩ := matvec_triple_split Wq Wk Wv x (nh * hd)
    (nkv * hd) hq hk
  have hfused : attnQKV ⟨tnh, nh, tnkv, nkv, hd, nh * hd, nkv * hd, true,
      some (Wq ++ Wk ++ Wv), none, none, none, Wo⟩ x =
      (matvec Wq x, matvec Wk x, matvec Wv x) := by
    simp only [attnQKV, if_true]
    exact congrArg₂ Prod.mk hsq (congrArg₂ Prod.mk hsk hsv)
  have hsplit : attnQKV ⟨tnh, nh, tnkv, nkv, hd, nh * hd, nkv * hd, false,
      none, some Wq, some Wk, some Wv, Wo⟩ x =
      (matvec Wq x, matvec Wk x, matvec Wv x) := by
    simp [attnQKV]
  refine ⟨hfused, hsplit, ?_, ?_⟩
  · simp only [attnForward, hfused, hsplit]
  · simp only [attnForward, hfused, rowParallelForward, if_true]

theorem claim_C8_attention_forward_witness :
    attnForward (fun _ q k => (q, k)) (fun _ _ v => v) (fun y => y)
      ⟨1, 1, 1, 1, 1, 1 * 1, 1 * 1, true,
        some ([[(1 : ℚ)]] ++ [[2]] ++ [[3]]), none, none, none, [[1]]⟩
      [0] [1] =
    attnForward (fun _ q k => (q, k)) (fun _ _ v => v) (fun y => y)
      ⟨1, 1, 1, 1, 1, 1 * 1, 1 * 1, false,
        none, some [[(1 : ℚ)]], some [[2]], some [[3]], [[1]]⟩ [0] [1] :=
  (claim_C8_attention_forward 1 1 1 1 1 [[(1 : ℚ)]] [[2]] [[3]] [[1]]
    (fun _ q k => (q, k)) (fun _ _ v => v) (fun y => y) [0] [1]
    (by decide) (by decide) (by decide)).2.2.1

/-! ## Decoder layer (DeepseekDecoderLayer.__init__, lines 305–341) -/

/-- The feed-forward block of a decoder layer: sparse MoE or dense MLP. -/
inductive FFN where
  | moe (st : MoEState)
  | dense (st : MLPState)
  deriving DecidableEq

structure DecoderLayerState where
  self_attn : AttnState
  mlp : FFN
  deriving DecidableEq

/-- `DeepseekDecoderLayer.__init__`: build the attention block, then pick
the feed-forward block permanently: MoE iff routed experts are configured
and `layer_idx >= first_k_dense_replace` and
`layer_idx % moe_layer_freq == 0`; otherwise a dense MLP over
`intermediate_size` (with its own result reduction). -/
def mkDecoderLayer (cfg : DeepseekConfig) (layer_idx tp : Nat)
    (lm : Option QuantConfig) : Except String DecoderLayerState := do
  let attn ← mkAttention cfg.hidden_size cfg.num_attention_heads
    cfg.num_key_value_heads tp lm
  let mlp ←
    if cfg.n_routed_experts ≠ none ∧ layer_idx ≥ cfg.first_k_dense_replace ∧
        layer_idx % cfg.moe_layer_freq = 0 then do
      let m ← mkMoE cfg tp lm
      Except.ok (FFN.moe m)
    else do
      let m ← mkMLP cfg.hidden_size cfg.intermediate_size cfg.hidden_act lm
        true
      Except.ok (FFN.dense m)
  Except.ok { self_attn := attn, mlp := mlp }

/-- C6: the decoder layer's feed-forward block, fixed at construction, is
MoE exactly when routed experts are configured AND the layer index is at
least `first_k_dense_replace` AND a multiple of `moe_layer_freq`; in every
other case it is the dense block over `intermediate_size`. -/
theorem claim_C6_ffn_choice (cfg : DeepseekConfig) (idx tp : Nat)
    (lm : Option QuantConfig) (st : DecoderLayerState)
    (hok : mkDecoderLayer cfg idx tp lm = Except.ok st) :
    ((∃ m, st.mlp = FFN.moe m) ↔
      (cfg.n_routed_experts ≠ none ∧ idx ≥ cfg.first_k_dense_replace ∧
        idx % cfg.moe_layer_freq = 0)) ∧
    (¬(cfg.n_routed_experts ≠ none ∧ idx ≥ cfg.first_k_dense_replace ∧
        idx % cfg.moe_layer_freq = 0) →
      ∃ m, st.mlp = FFN.dense m ∧ m.interDim = cfg.intermediate_size) := by
  simp only [mkDecoderLayer] at hok
  cases ha : mkAttention cfg.hidden_size cfg.num_attention_heads
      cfg.num_key_value_heads tp lm with
  | error msg =>
    rw [ha, exceptBind_err] at hok
    exact Except.noConfusion hok
  | ok attn =>
    rw [ha, exceptBind_ok] at hok
    by_cases hcond : cfg.n_routed_experts ≠ none ∧
        idx ≥ cfg.first_k_dense_replace ∧ idx % cfg.moe_layer_freq = 0
    · rw [if_pos hcond] at hok
      cases hm : mkMoE cfg tp lm with
      | error msg =>
        rw [hm] at hok
        exact Except.noConfusion hok
      | ok m =>
        rw [hm] at hok
        simp only [exceptBind_ok, Except.ok.injEq] at hok
        subst hok
        refine ⟨⟨fun _ => hcond, fun _ => ⟨m, rfl⟩⟩, fun hc => absurd hcond hc⟩
    · rw [if_neg hcond] at hok
      cases hm : mkMLP cfg.hidden_size cfg.intermediate_size cfg.hidden_act
          lm true with
      | error msg =>
        rw [hm] at hok
        exact Except.noConfusion hok
      | ok m =>
        rw [hm] at hok
        simp only [exceptBind_ok, Except.ok.injEq] at hok
        subst hok
        refine ⟨⟨?_, fun hc => absurd hc hcond⟩, ?_⟩
        · rintro ⟨m', hm'⟩
          exact FFN.noConfusion hm'
        · intro _
          exact ⟨m, rfl, (mkMLP_fields _ _ _ _ _ _ hm).2.1⟩

theorem claim_C6_ffn_choice_witness :
    ∃ m, (DecoderLayerState.mlp
      { self_attn :=
          ⟨1, 1, 1, 1, 1, 1, 1, true, some (zeroMat 3 1), none, none, none,
            zeroMat 1 1⟩,
        mlp := FFN.dense
          { merge_weight := true, gate_up_proj := some (zeroMat 2 1),
            gate_proj := none, up_proj := none, down_proj := zeroMat 1 1,
            reduce_results := true, hiddenDim := 1, interDim := 1 } }) =
      FFN.dense m ∧ m.interDim = 1 :=
  (claim_C6_ffn_choice
    { hidden_size := 1, intermediate_size := 1, moe_intermediate_size := 1,
      hidden_act := "silu", n_routed_experts := some 1,
      num_experts_per_tok := 1, norm_topk_prob := false,
      n_shared_experts := none, first_k_dense_replace := 1,
      moe_layer_freq := 1, num_attention_heads := 1,
      num_key_value_heads := 1 } 0 1 none _ (by rfl)).2 (by decide)

/-! ## Weight loading (DeepseekForCausalLM.load_weights, lines 450–502)

Python string operations are modelled on the character lists underlying
`String`: `needle in hay` is `occursIn`, `str.replace` (all occurrences,
left to right) is `strReplace`, `str.endswith` is `strEndsWith`. -/

/-- `needle` is a prefix of `hay`. -/
def startsWithSeg : List Char → List Char → Bool
  | [], _ => true
  | _ :: _, [] => false
  | c :: cs, d :: ds => c == d && startsWithSeg cs ds

/-- `needle` occurs somewhere in `hay` (Python `needle in hay`). -/
def hasSeg (needle : List Char) : List Char → Bool
  | [] => startsWithSeg needle []
  | c :: t => startsWithSeg needle (c :: t) || hasSeg needle t

def occursIn (needle hay : String) : Bool := hasSeg needle.data hay.data

/-- Replace every (non-overlapping, left-to-right) occurrence of `old` by
`new`; the fuel equals the input length, which bounds the recursion since
every step consumes at least one character (`old` is never empty here). -/
def replaceGo (old new : List Char) : Nat → List Char → List Char
  | 0, s => s
  | Nat.succ fuel, s =>
    if startsWithSeg old s && !old.isEmpty then
      new ++ replaceGo old new fuel (s.drop old.length)
    else
      match s with
      | [] => []
      | c :: t => c :: replaceGo old new fuel t

/-- Python `s.replace(old, new)`. -/
def strReplace (s old new : String) : String :=
  ⟨replaceGo old.data new.data s.data.length s.data⟩

/-- Python `s.endswith(suffix)`. -/
def strEndsWith (s suffix : String) : Bool :=
  startsWithSeg suffix.data.reverse s.data.reverse

/-- Shard identifiers recorded in the stacking table: `"q"/"k"/"v"` for
QKV and the integers `0/1` for gate/up. -/
inductive ShardId where
  | q
  | k
  | v
  | idx (n : Nat)
  deriving DecidableEq

/-- What `load_weights` does with one checkpoint `(name, tensor)` pair. -/
inductive LoadAction where
  | skipped
  | loadedStacked (param : String) (shard : ShardId)
  | loadedPlain (param : String) (usedDefaultLoader : Bool)
  | fatal (name : String)
  deriving DecidableEq

/-- An in-memory parameter: its name and whether a `weight_loader`
attribute is attached to it. -/
structure ParamEntry where
  name : String
  hasLoader : Bool
  deriving DecidableEq

def lookupParam (params : List ParamEntry) (n : String) : Option ParamEntry :=
  params.find? (fun p => p.name == n)

def inParams (params : List ParamEntry) (n : String) : Bool :=
  (lookupParam params n).isSome

/-- The stacking table of lines 455–462:
`(param_name, weight_name, shard_id)`. -/
def stacked_params_mapping : List (String × String × ShardId) :=
  [("qkv_proj", "q_proj", ShardId.q),
   ("qkv_proj", "k_proj", ShardId.k),
   ("qkv_proj", "v_proj", ShardId.v),
   ("gate_up_proj", "gate_proj", ShardId.idx 0),
   ("gate_up_proj", "up_proj", ShardId.idx 1)]

/-- Lines 481/493: skip bias names with no matching parameter (GPTQ). -/
def biasSkip (params : List ParamEntry) (name : String) : Bool :=
  strEndsWith name ".bias" && !(inParams params name)

/-- Lines 483–486/495–498: skip expert / shared-expert parameters not
owned by this worker. -/
def expertSkip (params : List ParamEntry) (name : String) : Bool :=
  (occursIn "mlp.experts." name || occursIn "mlp.shared_experts." name) &&
    !(inParams params name)

/-- The `for (param_name, weight_name, shard_id) in stacked_params_mapping`
loop of lines 476–502, including its `for/else`: on a substring match the
name is rewritten (and stays rewritten for the remaining iterations); the
two `continue`s advance the inner loop; absent the match the else-branch
loads by exact name with `getattr(param, "weight_loader",
default_weight_loader)`. -/
def loadLoop (params : List ParamEntry) :
    List (String × String × ShardId) → String → LoadAction
  | [], name =>
    if biasSkip params name then LoadAction.skipped
    else if expertSkip params name then LoadAction.skipped
    else
      match lookupParam params name with
      | none => LoadAction.fatal name
      | some p => LoadAction.loadedPlain name (!p.hasLoader)
  | (param_name, weight_name, shard_id) :: rest, name =>
    if !(occursIn weight_name name) then loadLoop params rest name
    else
      let name2 := strReplace name weight_name param_name
      if biasSkip params name2 then loadLoop params rest name2
      else if expertSkip params name2 then loadLoop params rest name2
      else
        match lookupParam params name2 with
        | none => LoadAction.fatal name2
        | some p =>
          if p.hasLoader then LoadAction.loadedStacked name2 shard_id
          else LoadAction.fatal name2

/-- `load_weights` for one `(name, tensor)` pair: skip rotary
inverse-frequency entries; otherwise run the stacking loop — with an
empty table when the quantization backend forbids fused layouts. -/
def load_weights_step (merge_weight : Bool) (params : List ParamEntry)
    (name : String) : LoadAction :=
  if occursIn "rotary_emb.inv_freq" name then LoadAction.skipped
  else loadLoop params (if merge_weight then stacked_params_mapping else []) name

theorem loadLoop_skip_entry (params : List ParamEntry) (pn wn : String)
    (sid : ShardId) (rest : List (String × String × ShardId)) (name : String)
    (h : occursIn wn name = false) :
    loadLoop params ((pn, wn, sid) :: rest) name = loadLoop params rest name := by
  simp [loadLoop, h]

theorem loadLoop_hit (params : List ParamEntry) (pn wn : String)
    (sid : ShardId) (rest : List (String × String × ShardId)) (name : String)
    (p : ParamEntry) (h : occursIn wn name = true)
    (hb : biasSkip params (strReplace name wn pn) = false)
    (he : expertSkip params (strReplace name wn pn) = false)
    (hl : lookupParam params (strReplace name wn pn) = some p)
    (hld : p.hasLoader = true) :
    loadLoop params ((pn, wn, sid) :: rest) name =
      LoadAction.loadedStacked (strReplace name wn pn) sid := by
  simp [loadLoop, h, hb, he, hl, hld]

/-- C3: per checkpoint pair, `load_weights` skips rotary inverse-frequency
entries; under fused layouts it rewrites stacking-table matches
(`q/k/v_proj → qkv_proj` with shards q/k/v, `gate/up_proj → gate_up_proj`
with shards 0/1, earlier entries taking precedence) and passes the
recorded shard to the parameter's weight loader; when no table entry
matches (or the table is bypassed) it silently skips absent bias names
and absent expert / shared-expert names, fails fatally for any other
absent name, and otherwise invokes the parameter's loader — the generic
default one when none is attached. -/
theorem claim_C3_load_weights :
    (∀ (mw : Bool) (P : List ParamEntry) (nm : String),
      occursIn "rotary_emb.inv_freq" nm = true →
      load_weights_step mw P nm = LoadAction.skipped) ∧
    (∀ (P : List ParamEntry) (nm : String) (p : ParamEntry),
      occursIn "rotary_emb.inv_freq" nm = false →
      occursIn "q_proj" nm = true →
      biasSkip P (strReplace nm "q_proj" "qkv_proj") = false →
      expertSkip P (strReplace nm "q_proj" "qkv_proj") = false →
      lookupParam P (strReplace nm "q_proj" "qkv_proj") = some p →
      p.hasLoader = true →
      load_weights_step true P nm =
        LoadAction.loadedStacked (strReplace nm "q_proj" "qkv_proj")
          ShardId.q) ∧
    (∀ (P : List ParamEntry) (nm : String) (p : ParamEntry),
      occursIn "rotary_emb.inv_freq" nm = false →
      occursIn "q_proj" nm = false →
      occursIn "k_proj" nm = true →
      biasSkip P (strReplace nm "k_proj" "qkv_proj") = false →
      expertSkip P (strReplace nm "k_proj" "qkv_proj") = false →
      lookupParam P (strReplace nm "k_proj" "qkv_proj") = some p →
      p.hasLoader = true →
      load_weights_step true P nm =
        LoadAction.loadedStacked (strReplace nm "k_proj" "qkv_proj")
          ShardId.k) ∧
    (∀ (P : List ParamEntry) (nm : String) (p : ParamEntry),
      occursIn "rotary_emb.inv_freq" nm = false →
      occursIn "q_proj" nm = false →
      occursIn "k_proj" nm = false →
      occursIn "v_proj" nm = true →
      biasSkip P (strReplace nm "v_proj" "qkv_proj") = false →
      expertSkip P (strReplace nm "v_proj" "qkv_proj") = false →
      lookupParam P (strReplace nm "v_proj" "qkv_proj") = some p →
      p.hasLoader = true →
      load_weights_step true P nm =
        LoadAction.loadedStacked (strReplace nm "v_proj" "qkv_proj")
          ShardId.v) ∧
    (∀ (P : List ParamEntry) (nm : String) (p : ParamEntry),
      occursIn "rotary_emb.inv_freq" nm = false →
      occursIn "q_proj" nm = false →
      occursIn "k_proj" nm = false →
      occursIn "v_proj" nm = false →
      occursIn "gate_proj" nm = true →
      biasSkip P (strReplace nm "gate_proj" "gate_up_proj") = false →
      expertSkip P (strReplace nm "gate_proj" "gate_up_proj") = false →
      lookupParam P (strReplace nm "gate_proj" "gate_up_proj") = some p →
      p.hasLoader = true →
      load_weights_step true P nm =
        LoadAction.loadedStacked (strReplace nm "gate_proj" "gate_up_proj")
          (ShardId.idx 0)) ∧
    (∀ (P : List ParamEntry) (nm : String) (p : ParamEntry),
      occursIn "rotary_emb.inv_freq" nm = false →
      occursIn "q_proj" nm = false →
      occursIn "k_proj" nm = false →
      occursIn "v_proj" nm = false →
      occursIn "gate_proj" nm = false →
      occursIn "up_proj" nm = true →
      biasSkip P (strReplace nm "up_proj" "gate_up_proj") = false →
      expertSkip P (strReplace nm "up_proj" "gate_up_proj") = false →
      lookupParam P (strReplace nm "up_proj" "gate_up_proj") = some p →
      p.hasLoader = true →
      load_weights_step true P nm =
        LoadAction.loadedStacked (strReplace nm "up_proj" "gate_up_proj")
          (ShardId.idx 1)) ∧
    (∀ (P : List ParamEntry) (nm : String),
      occursIn "q_proj" nm = false →
      occursIn "k_proj" nm = false →
      occursIn "v_proj" nm = false →
      occursIn "gate_proj" nm = false →
      occursIn "up_proj" nm = false →
      load_weights_step true P nm = load_weights_step false P nm) ∧
    (∀ (P : List ParamEntry) (nm : String),
      occursIn "rotary_emb.inv_freq" nm = false →
      biasSkip P nm = true →
      load_weights_step false P nm = LoadAction.skipped) ∧
    (∀ (P : List ParamEntry) (nm : String),
      occursIn "rotary_emb.inv_freq" nm = false →
      biasSkip P nm = false →
      expertSkip P nm = true →
      load_weights_step false P nm = LoadAction.skipped) ∧
    (∀ (P : List ParamEntry) (nm : String),
      occursIn "rotary_emb.inv_freq" nm = false →
      biasSkip P nm = false →
      expertSkip P nm = false →
      lookupParam P nm = none →
      load_weights_step false P nm = LoadAction.fatal nm) ∧
    (∀ (P : List ParamEntry) (nm : String) (p : ParamEntry),
      occursIn "rotary_emb.inv_freq" nm = false →
      biasSkip P nm = false →
      expertSkip P nm = false →
      lookupParam P nm = some p →
      load_weights_step false P nm =
        LoadAction.loadedPlain nm (!p.hasLoader)) := by
  refine ⟨?_, ?_, ?_, ?_, ?_, ?_, ?_, ?_, ?_, ?_, ?_⟩
  · intro mw P nm h
    simp [load_weights_step, h]
  · intro P nm p hrot hq hb he hl hld
    simp only [load_weights_step, hrot, Bool.false_eq_true, if_false,
      if_true, stacked_params_mapping]
    rw [loadLoop_hit P _ _ _ _ nm p hq hb he hl hld]
  · intro P nm p hrot hq hk hb he hl hld
    simp only [load_weights_step, hrot, Bool.false_eq_true, if_false,
      if_true, stacked_params_mapping]
    rw [loadLoop_skip_entry P _ _ _ _ nm hq,
      loadLoop_hit P _ _ _ _ nm p hk hb he hl hld]
  · intro P nm p hrot hq hk hv hb he hl hld
    simp only [load_weights_step, hrot, Bool.false_eq_true, if_false,
      if_true, stacked_params_mapping]
    rw [loadLoop_skip_entry P _ _ _ _ nm hq,
      loadLoop_skip_entry P _ _ _ _ nm hk,
      loadLoop_hit P _ _ _ _ nm p hv hb he hl hld]
  · intro P nm p hrot hq hk hv hg hb he hl hld
    simp only [load_weights_step, hrot, Bool.false_eq_true, if_false,
      if_true, stacked_params_mapping]
    rw [loadLoop_skip_entry P _ _ _ _ nm hq,
      loadLoop_skip_entry P _ _ _ _ nm hk,
      loadLoop_skip_entry P _ _ _ _ nm hv,
      loadLoop_hit P _ _ _ _ nm p hg hb he hl hld]
  · intro P nm p hrot hq hk hv hg hu hb he hl hld
    simp only [load_weights_step, hrot, Bool.false_eq_true, if_false,
      if_true, stacked_params_mapping]
    rw [loadLoop_skip_entry P _ _ _ _ nm hq,
      loadLoop_skip_entry P _ _ _ _ nm hk,
      loadLoop_skip_entry P _ _ _ _ nm hv,
      loadLoop_skip_entry P _ _ _ _ nm hg,
      loadLoop_hit P _ _ _ _ nm p hu hb he hl hld]
  · intro P nm hq hk hv hg hu
    by_cases hrot : occursIn "rotary_emb.inv_freq" nm = true
    · simp [load_weights_step, hrot]
    · have hrot' : occursIn "rotary_emb.inv_freq" nm = false :=
        Bool.not_eq_true _ ▸ Bool.of_not_eq_true hrot
      simp only [load_weights_step, hrot', Bool.false_eq_true, if_false,
        if_true, stacked_params_mapping]
      rw [loadLoop_skip_entry P _ _ _ _ nm hq,
        loadLoop_skip_entry P _ _ _ _ nm hk,
        loadLoop_skip_entry P _ _ _ _ nm hv,
        loadLoop_skip_entry P _ _ _ _ nm hg,
        loadLoop_skip_entry P _ _ _ _ nm hu]
  · intro P nm hrot hb
    simp [load_weights_step, hrot, loadLoop, hb]
  · intro P nm hrot hb he
    simp [load_weights_step, hrot, loadLoop, hb, he]
  · intro P nm hrot hb he hl
    simp [load_weights_step, hrot, loadLoop, hb, he, hl]
  · intro P nm p hrot hb he hl
    simp [load_weights_step, hrot, loadLoop, hb, he, hl]

theorem claim_C3_load_weights_witness :
    load_weights_step true
      [({ name := "model.layers.0.self_attn.qkv_proj.weight",
          hasLoader := true } : ParamEntry)]
      "model.layers.0.self_attn.q_proj.weight" =
      LoadAction.loadedStacked
        (strReplace "model.layers.0.self_attn.q_proj.weight" "q_proj"
          "qkv_proj") ShardId.q ∧
    load_weights_step false [] "model.embed_tokens.weight" =
      LoadAction.fatal "model.embed_tokens.weight" := by
  constructor
  · exact claim_C3_load_weights.2.1 _ _
      { name := "model.layers.0.self_attn.qkv_proj.weight", hasLoader := true }
      (by decide) (by decide) (by decide) (by decide) (by decide) rfl
  · exact claim_C3_load_weights.2.2.2.2.2.2.2.2.2.1 [] _
      (by decide) (by decide) (by decide) rfl
